import Mathlib

/-!
Verification development for the SkillPath learning-plan organizer.

The definitions below are a shallow embedding of the TypeScript sources:
  - `src/services/geminiService.ts` (JSON repair `extractJson`, refinement
    `updatePlanWithChat` day construction),
  - the application store in `App.tsx` (`handleToggleTask`, `handleUpdateNotes`,
    `handleSessionToggle`, `handleCreatePlan`, `handleDeletePlan`,
    `handleUpdatePlan`, and the auto-select-today effect),
  - `src/components/PlanCalendar.tsx` (`getDayDate`, `getStatusColor`),
  - `src/components/QuizModal.tsx` (`calculateScore`).

JavaScript `JSON.parse` is modelled by an executable recursive-descent parser
(`jsonParse`) over the ECMA-404 grammar.  Number tokens are kept as their raw
lexemes (no claim compares numeric values across distinct lexemes) and string
escapes are decoded; a `\uXXXX` escape in the surrogate range is mapped through
`Char.ofNat` (no claim exercises surrogates).  Machine timestamps are modelled
as mathematical integers in milliseconds; the exact integers involved are far
below 2^53, where JavaScript number arithmetic is exact.
-/

namespace SkillPath

/-- JSON values as produced by `JSON.parse`.  Number tokens keep their lexeme. -/
inductive Json where
  | null
  | bool (b : Bool)
  | num (lexeme : String)
  | str (s : String)
  | arr (elems : List Json)
  | obj (fields : List (String × Json))
deriving Repr

/-- The four whitespace characters permitted by the JSON grammar. -/
def isJsonWs (c : Char) : Bool :=
  c = ' ' || c = '\t' || c = '\n' || c = '\r'

/-- Skip JSON whitespace. -/
def dropWs (cs : List Char) : List Char :=
  cs.dropWhile isJsonWs

/-- Decimal digit test. -/
def isDigitCh (c : Char) : Bool :=
  '0' ≤ c && c ≤ '9'

/-- Hexadecimal digit test. -/
def isHexCh (c : Char) : Bool :=
  isDigitCh c || ('a' ≤ c && c ≤ 'f') || ('A' ≤ c && c ≤ 'F')

/-- Value of a hexadecimal digit. -/
def hexVal (c : Char) : Nat :=
  if isDigitCh c then c.toNat - 48
  else if 'a' ≤ c then c.toNat - 87
  else c.toNat - 55

/-- Parse exactly four hex digits (the `\uXXXX` escape payload). -/
def parseHex4 : List Char → Option (Nat × List Char)
  | a :: b :: c :: d :: rest =>
    if isHexCh a && isHexCh b && isHexCh c && isHexCh d then
      some ((((hexVal a * 16 + hexVal b) * 16 + hexVal c) * 16 + hexVal d), rest)
    else none
  | _ => none

/-- Decode a single-character JSON string escape. -/
def escChar (c : Char) : Option Char :=
  if c = '"' then some '"'
  else if c = '\\' then some '\\'
  else if c = '/' then some '/'
  else if c = 'b' then some (Char.ofNat 8)
  else if c = 'f' then some (Char.ofNat 12)
  else if c = 'n' then some '\n'
  else if c = 'r' then some '\r'
  else if c = 't' then some '\t'
  else none

/-- Parse the body of a JSON string (after the opening quote), decoding
escapes and rejecting raw control characters, as `JSON.parse` does. -/
def parseStringBody (fuel : Nat) (acc : List Char) (cs : List Char) :
    Option (String × List Char) :=
  match fuel with
  | 0 => none
  | fuel + 1 =>
    match cs with
    | [] => none
    | c :: rest =>
      if c = '"' then some (String.mk acc.reverse, rest)
      else if c = '\\' then
        match rest with
        | [] => none
        | e :: rest2 =>
          if e = 'u' then
            match parseHex4 rest2 with
            | some (n, rest3) => parseStringBody fuel (Char.ofNat n :: acc) rest3
            | none => none
          else
            match escChar e with
            | some ch => parseStringBody fuel (ch :: acc) rest2
            | none => none
      else if c.toNat < 32 then none
      else parseStringBody fuel (c :: acc) rest

/-- Parse the optional exponent part of a JSON number. -/
def parseExpPart (acc : List Char) (cs : List Char) : Option (String × List Char) :=
  match cs with
  | [] => some (String.mk acc, [])
  | c :: rest =>
    if c = 'e' || c = 'E' then
      let sgn : List Char × List Char :=
        match rest with
        | d :: r2 => if d = '+' || d = '-' then ([d], r2) else ([], rest)
        | [] => ([], rest)
      match sgn.2 with
      | d :: _ =>
        if isDigitCh d then
          let ds := sgn.2.takeWhile isDigitCh
          some (String.mk (acc ++ [c] ++ sgn.1 ++ ds), sgn.2.drop ds.length)
        else none
      | [] => none
    else some (String.mk acc, cs)

/-- Parse the optional fraction part of a JSON number, then the exponent. -/
def parseFracPart (acc : List Char) (cs : List Char) : Option (String × List Char) :=
  match cs with
  | [] => some (String.mk acc, [])
  | c :: rest =>
    if c = '.' then
      match rest with
      | d :: _ =>
        if isDigitCh d then
          let ds := rest.takeWhile isDigitCh
          parseExpPart (acc ++ [c] ++ ds) (rest.drop ds.length)
        else none
      | [] => none
    else parseExpPart acc cs

/-- Parse a JSON number token (`-? (0 | [1-9][0-9]*) frac? exp?`),
returning its lexeme. -/
def parseNumber (cs : List Char) : Option (String × List Char) :=
  let signed : List Char × List Char :=
    match cs with
    | c :: rest => if c = '-' then ([c], rest) else ([], cs)
    | [] => ([], cs)
  match signed.2 with
  | [] => none
  | c :: rest =>
    if c = '0' then parseFracPart (signed.1 ++ [c]) rest
    else if isDigitCh c then
      let ds := rest.takeWhile isDigitCh
      parseFracPart (signed.1 ++ c :: ds) (rest.drop ds.length)
    else none

mutual

/-- Parse one JSON value.  `fuel` strictly decreases on every recursive call;
`jsonParse` supplies more fuel than any input can consume. -/
def parseValue (fuel : Nat) (cs : List Char) : Option (Json × List Char) :=
  match fuel with
  | 0 => none
  | fuel + 1 =>
    match cs with
    | [] => none
    | c :: rest =>
      if c = 't' then
        match rest with
        | 'r' :: 'u' :: 'e' :: rest2 => some (Json.bool true, rest2)
        | _ => none
      else if c = 'f' then
        match rest with
        | 'a' :: 'l' :: 's' :: 'e' :: rest2 => some (Json.bool false, rest2)
        | _ => none
      else if c = 'n' then
        match rest with
        | 'u' :: 'l' :: 'l' :: rest2 => some (Json.null, rest2)
        | _ => none
      else if c = '"' then
        match parseStringBody (rest.length + 1) [] rest with
        | some (s, rest2) => some (Json.str s, rest2)
        | none => none
      else if c = '[' then parseArrayBody fuel (dropWs rest)
      else if c = Char.ofNat 123 then parseObjectBody fuel (dropWs rest)
      else if c = '-' || isDigitCh c then
        match parseNumber cs with
        | some (s, rest2) => some (Json.num s, rest2)
        | none => none
      else none

/-- Parse the remainder of an array, positioned after `[` and whitespace. -/
def parseArrayBody (fuel : Nat) (cs : List Char) : Option (Json × List Char) :=
  match fuel with
  | 0 => none
  | fuel + 1 =>
    match cs with
    | ']' :: rest => some (Json.arr [], rest)
    | _ => parseElems fuel [] cs

/-- Parse the comma-separated elements of a non-empty array. -/
def parseElems (fuel : Nat) (acc : List Json) (cs : List Char) :
    Option (Json × List Char) :=
  match fuel with
  | 0 => none
  | fuel + 1 =>
    match parseValue fuel cs with
    | none => none
    | some (v, rest) =>
      match dropWs rest with
      | ',' :: rest2 => parseElems fuel (v :: acc) (dropWs rest2)
      | ']' :: rest2 => some (Json.arr (v :: acc).reverse, rest2)
      | _ => none

/-- Parse the remainder of an object, positioned after the opening brace and
whitespace. -/
def parseObjectBody (fuel : Nat) (cs : List Char) : Option (Json × List Char) :=
  match fuel with
  | 0 => none
  | fuel + 1 =>
    match cs with
    | c :: rest =>
      if c = Char.ofNat 125 then some (Json.obj [], rest)
      else parseMembers fuel [] cs
    | [] => none

/-- Parse the comma-separated members of a non-empty object. -/
def parseMembers (fuel : Nat) (acc : List (String × Json)) (cs : List Char) :
    Option (Json × List Char) :=
  match fuel with
  | 0 => none
  | fuel + 1 =>
    match cs with
    | '"' :: rest =>
      match parseStringBody (rest.length + 1) [] rest with
      | none => none
      | some (key, rest2) =>
        match dropWs rest2 with
        | ':' :: rest3 =>
          match parseValue fuel (dropWs rest3) with
          | none => none
          | some (v, rest4) =>
            match dropWs rest4 with
            | ',' :: rest5 => parseMembers fuel ((key, v) :: acc) (dropWs rest5)
            | c :: rest5 =>
              if c = Char.ofNat 125 then some (Json.obj ((key, v) :: acc).reverse, rest5)
              else none
            | [] => none
        | _ => none
    | _ => none

end

/-- Model of JavaScript `JSON.parse`: leading and trailing whitespace is
permitted around a single value; `none` models a thrown `SyntaxError`. -/
def jsonParse (s : String) : Option Json :=
  match parseValue (2 * s.length + 8) (dropWs s.data) with
  | some (v, rest) => if dropWs rest = [] then some v else none
  | none => none

/-! ### The code-block regex of `extractJson`

`extractJson` begins with
`text.match(/die-fence(?:json)?\s*([\s\S]*?)\s*die-fence/)` (where `die-fence`
is a triple backtick).  The model below reproduces the observable behaviour of
that regex under JavaScript leftmost-match backtracking semantics:

  - a match attempt at position `i` succeeds exactly when a triple backtick
    starts at `i` and another one starts at some position `k ≥ i + 3`
    (any segment decomposes as `(json)? ws* anything ws*`);
    the overall match starts at the least such `i`;
  - the greedy `(?:json)?` and first `\s*` never need to backtrack: neither a
    letter of `json` nor a whitespace character can start a triple backtick,
    so consuming them maximally never loses the closing fence;
  - the lazy capture therefore ends at the first closing fence position
    `K ≥ s0` (where `s0` is the position after the prefix), shortened by the
    maximal whitespace run immediately preceding `K` (but never before `s0`).

`isJsRegexWs` covers the ASCII part of the JavaScript `\s` class; the claims
and all inputs considered are ASCII. -/

/-- The backtick character. -/
def backtick : Char := Char.ofNat 96

/-- ASCII whitespace as matched by the JavaScript regex class `\s`. -/
def isJsRegexWs (c : Char) : Bool :=
  c = ' ' || c = '\t' || c = '\n' || c = '\r' || c = Char.ofNat 11 || c = Char.ofNat 12

/-- Does a triple backtick start at position `i`? -/
def isTripleAt (cs : List Char) (i : Nat) : Bool :=
  (cs.drop i).take 3 = [backtick, backtick, backtick]

/-- Position of the first triple backtick at or after `i`. -/
def tripleFrom (cs : List Char) (i : Nat) : Option Nat :=
  (List.range cs.length).find? (fun j => decide (i ≤ j) && isTripleAt cs j)

/-- Content of capture group 1 of the fenced-code-block regex, or `none` when
the regex does not match (`codeBlockMatch` falsy in the source). -/
def codeBlockCapture (text : String) : Option String :=
  let cs := text.data
  match (List.range cs.length).find?
      (fun i => isTripleAt cs i && (tripleFrom cs (i + 3)).isSome) with
  | none => none
  | some i =>
    let j := i + 3
    let j2 := if (cs.drop j).take 4 = ['j', 's', 'o', 'n'] then j + 4 else j
    let s0 := j2 + ((cs.drop j2).takeWhile isJsRegexWs).length
    match tripleFrom cs s0 with
    | none => none
    | some K =>
      let b := K - ((cs.take K).reverse.takeWhile isJsRegexWs).length
      some (String.mk ((cs.drop s0).take (max s0 b - s0)))

/-! ### The repair cascade `extractJson` -/

/-- The opening-brace character. -/
def openBrace : Char := Char.ofNat 123

/-- The closing-brace character. -/
def closeBrace : Char := Char.ofNat 125

/-- JavaScript `String.prototype.indexOf` for a single character
(as an `Option` instead of `-1`). -/
def jsIndexOf (cs : List Char) (c : Char) : Option Nat :=
  cs.findIdx? (· = c)

/-- JavaScript `String.prototype.lastIndexOf` for a single character. -/
def jsLastIndexOf (cs : List Char) (c : Char) : Option Nat :=
  match cs.reverse.findIdx? (· = c) with
  | some k => some (cs.length - 1 - k)
  | none => none

/-- JavaScript `String.prototype.substring`: arguments are clamped to the
string bounds and swapped when given in descending order. -/
def jsSubstring (cs : List Char) (a b : Nat) : List Char :=
  let a2 := min a cs.length
  let b2 := min b cs.length
  (cs.drop (min a2 b2)).take (max a2 b2 - min a2 b2)

/-- The user-facing message of the `MalformedResponse` error thrown by
`extractJson`. -/
def invalidFormatMessage : String :=
  "The model generated an invalid format. Please try again."

/-- The `catch` block of `extractJson`: locate the first opening brace and the
last closing brace and try to parse the substring between them (inclusive);
when either brace is missing or that parse also fails, throw the
`MalformedResponse` error. -/
def tryLastResort (text : String) : Except String Json :=
  let cs := text.data
  match jsIndexOf cs openBrace, jsLastIndexOf cs closeBrace with
  | some firstOpen, some lastClose =>
    match jsonParse (String.mk (jsSubstring cs firstOpen (lastClose + 1))) with
    | some v => Except.ok v
    | none => Except.error invalidFormatMessage
  | some _, none => Except.error invalidFormatMessage
  | none, _ => Except.error invalidFormatMessage

/-- Model of `extractJson` (geminiService.ts, lines 17-42).  Inside the `try`
block: when the code-block regex matches, the result is decided by parsing the
captured content (a parse failure raises the exception caught below — the raw
text is *not* attempted in that case); only when there is no code block is the
raw text parsed.  The `catch` block is `tryLastResort`. -/
def extractJson (text : String) : Except String Json :=
  match codeBlockCapture text with
  | some content =>
    match jsonParse content with
    | some v => Except.ok v
    | none => tryLastResort text
  | none =>
    match jsonParse text with
    | some v => Except.ok v
    | none => tryLastResort text

/-! ### Data model (types.ts)

`Session.end` and prior-art field names are kept; optional fields of the
TypeScript interfaces (`notes?`, `sessions?`) are modelled with `Option`,
`none` standing for an absent key.  Timestamps (`Date.now()`) are integers in
milliseconds. -/

/-- A resource link attached to a task. -/
structure Resource where
  title : String
  url : String
  type : String
deriving Repr, DecidableEq

/-- One actionable task of a day. -/
structure Task where
  id : String
  text : String
  isCompleted : Bool
  resources : List Resource
deriving Repr, DecidableEq

/-- One tracked study interval; a `none` end means the session is open. -/
structure Session where
  start : Int
  «end» : Option Int
deriving Repr, DecidableEq

/-- One day of a learning plan. -/
structure DayPlan where
  dayNumber : Int
  title : String
  description : String
  tasks : List Task
  notes : Option String
  sessions : Option (List Session)
deriving Repr, DecidableEq

/-- A learning plan. -/
structure LearningPlan where
  id : String
  topic : String
  durationDays : Int
  dailyTime : String
  startDate : String
  lastUpdated : String
  days : List DayPlan
deriving Repr, DecidableEq

/-- The application store: the plan collection and the active plan id. -/
structure Store where
  plans : List LearningPlan
  activePlanId : Option String
deriving Repr, DecidableEq

/-! ### Store operations (App.tsx) -/

/-- The innermost arrow function of `handleToggleTask`: flip `isCompleted`
of a task whose id matches. -/
def toggleTaskInTask (taskId : String) (task : Task) : Task :=
  if task.id = taskId then { task with isCompleted := !task.isCompleted } else task

/-- The per-day arrow function of `handleToggleTask`. -/
def toggleTaskInDay (dayNumber : Int) (taskId : String) (day : DayPlan) : DayPlan :=
  if day.dayNumber ≠ dayNumber then day
  else { day with tasks := day.tasks.map (toggleTaskInTask taskId) }

/-- The per-plan arrow function of `handleToggleTask`. -/
def toggleTaskInPlan (aid : String) (dayNumber : Int) (taskId : String)
    (plan : LearningPlan) : LearningPlan :=
  if plan.id ≠ aid then plan
  else { plan with days := plan.days.map (toggleTaskInDay dayNumber taskId) }

/-- Model of `handleToggleTask` (App.tsx lines 107-131): in the active plan,
in every day whose number matches, flip `isCompleted` of every task whose id
matches; early return when no plan is active.  The nested arrow functions of
the source are the named helpers above. -/
def handleToggleTask (activePlanId : Option String) (plans : List LearningPlan)
    (dayNumber : Int) (taskId : String) : List LearningPlan :=
  match activePlanId with
  | none => plans
  | some aid => plans.map (toggleTaskInPlan aid dayNumber taskId)

/-- The per-day arrow function of `handleUpdateNotes`. -/
def updateNotesInDay (dayNumber : Int) (notes : String) (day : DayPlan) : DayPlan :=
  if day.dayNumber ≠ dayNumber then day else { day with notes := some notes }

/-- The per-plan arrow function of `handleUpdateNotes`. -/
def updateNotesInPlan (aid : String) (dayNumber : Int) (notes : String)
    (plan : LearningPlan) : LearningPlan :=
  if plan.id ≠ aid then plan
  else { plan with days := plan.days.map (updateNotesInDay dayNumber notes) }

/-- Model of `handleUpdateNotes` (App.tsx lines 133-147). -/
def handleUpdateNotes (activePlanId : Option String) (plans : List LearningPlan)
    (dayNumber : Int) (notes : String) : List LearningPlan :=
  match activePlanId with
  | none => plans
  | some aid => plans.map (updateNotesInPlan aid dayNumber notes)

/-- The session-list update inside `handleSessionToggle`: when the last
session is open, stamp its end with the current time; otherwise append a new
open session starting now (`day.sessions || []` is the caller's default). -/
def toggleSessions (sessions : List Session) (now : Int) : List Session :=
  match sessions.getLast? with
  | some lastSession =>
    if lastSession.«end» = none then
      sessions.set (sessions.length - 1) { lastSession with «end» := some now }
    else sessions ++ [{ start := now, «end» := none }]
  | none => sessions ++ [{ start := now, «end» := none }]

/-- The per-day arrow function of `handleSessionToggle`. -/
def toggleSessionInDay (dayNumber : Int) (now : Int) (day : DayPlan) : DayPlan :=
  if day.dayNumber ≠ dayNumber then day
  else { day with sessions := some (toggleSessions (day.sessions.getD []) now) }

/-- The per-plan arrow function of `handleSessionToggle`. -/
def toggleSessionInPlan (aid : String) (dayNumber : Int) (now : Int)
    (plan : LearningPlan) : LearningPlan :=
  if plan.id ≠ aid then plan
  else { plan with days := plan.days.map (toggleSessionInDay dayNumber now) }

/-- Model of `handleSessionToggle` (App.tsx lines 149-178). -/
def handleSessionToggle (activePlanId : Option String) (plans : List LearningPlan)
    (dayNumber : Int) (now : Int) : List LearningPlan :=
  match activePlanId with
  | none => plans
  | some aid => plans.map (toggleSessionInPlan aid dayNumber now)

/-- Model of `handleCreatePlan` (App.tsx lines 86-93): prepend and activate. -/
def handleCreatePlan (newPlan : LearningPlan) (s : Store) : Store :=
  { plans := newPlan :: s.plans, activePlanId := some newPlan.id }

/-- Model of `handleDeletePlan` (App.tsx lines 95-105): remove by id; when the
active plan was removed, the new head (if any) becomes active. -/
def handleDeletePlan (id : String) (s : Store) : Store :=
  let newPlans := s.plans.filter fun p => p.id ≠ id
  { plans := newPlans
    activePlanId :=
      if s.activePlanId = some id then newPlans.head?.map (fun p => p.id)
      else s.activePlanId }

/-- Model of `handleUpdatePlan` (App.tsx lines 184-186): replace by id. -/
def handleUpdatePlan (updatedPlan : LearningPlan) (plans : List LearningPlan) :
    List LearningPlan :=
  plans.map fun p => if p.id = updatedPlan.id then updatedPlan else p

/-! ### The auto-select-today effect (App.tsx lines 62-84)

`plan.startDate` is an arbitrary instant (PlanWizard stores
`new Date().toISOString()`), while `today` has been truncated to local
midnight by `setHours(0,0,0,0)`.  Both are modelled as integer millisecond
timestamps.  `Math.ceil` over the exact integer quotient is faithful: all
involved magnitudes are far below the range where double rounding could move
the quotient across an integer. -/

/-- Milliseconds in a day (`1000 * 60 * 60 * 24`). -/
def msPerDay : Nat := 86400000

/-- Model of the day auto-selection effect: `diffTime` is the absolute
difference, `diffDays` its ceiling in days, and the day numbered
`diffDays + 1` is selected when today lies in range. -/
def autoSelectDay (startMs todayMs : Int) (days : List DayPlan) : Option DayPlan :=
  let diffTime := (todayMs - startMs).natAbs
  let diffDays := (diffTime + (msPerDay - 1)) / msPerDay
  if startMs ≤ todayMs ∧ diffDays < days.length then
    days.find? fun d => d.dayNumber = (diffDays : Int) + 1
  else none

/-! ### Calendar date mapping (PlanCalendar.tsx)

`getDayDate` does `date.setDate(startDate.getDate() + (dayNumber - 1))`:
the day-of-month is set to a possibly out-of-range value and the JavaScript
`Date` normalizes it by rolling excess days into the following months.
`normDom` models exactly that normalization for values `≥ 1` (all uses have
`dayNumber ≥ 1`).  Calendar dates are year/month/day triples. -/

/-- A calendar date (month `1`-`12`, day starting at `1`). -/
structure Ymd where
  year : Int
  month : Nat
  day : Nat
deriving Repr, DecidableEq

/-- Gregorian leap-year rule. -/
def isLeapYear (y : Int) : Bool :=
  (y % 4 = 0 && y % 100 ≠ 0) || y % 400 = 0

/-- Number of days in a month. -/
def daysInMonth (y : Int) (m : Nat) : Nat :=
  if m = 2 then (if isLeapYear y then 29 else 28)
  else if m = 4 ∨ m = 6 ∨ m = 9 ∨ m = 11 then 30
  else 31

theorem daysInMonth_pos (y : Int) (m : Nat) : 0 < daysInMonth y m := by
  unfold daysInMonth
  repeat' split
  all_goals norm_num

/-- The calendar successor of a date. -/
def nextDay (d : Ymd) : Ymd :=
  if d.day < daysInMonth d.year d.month then ⟨d.year, d.month, d.day + 1⟩
  else if d.month < 12 then ⟨d.year, d.month + 1, 1⟩
  else ⟨d.year + 1, 1, 1⟩

/-- Normalize an overflowing day-of-month the way `Date.prototype.setDate`
does for values `≥ 1`: roll whole months forward until the value fits. -/
def normDom (y : Int) (m : Nat) (d : Nat) : Ymd :=
  if d ≤ daysInMonth y m then ⟨y, m, d⟩
  else if m < 12 then normDom y (m + 1) (d - daysInMonth y m)
  else normDom (y + 1) 1 (d - daysInMonth y 12)
termination_by d
decreasing_by
  all_goals
    have h1 := daysInMonth_pos y m
    have h2 := daysInMonth_pos y 12
    omega

/-- Model of `getDayDate` (PlanCalendar.tsx lines 59-63) for `dayNumber ≥ 1`. -/
def getDayDate (startDate : Ymd) (dayNumber : Nat) : Ymd :=
  normDom startDate.year startDate.month (startDate.day + dayNumber - 1)

/-- Adding `k` calendar days, as iterated calendar successor. -/
def addDays (d : Ymd) (k : Nat) : Ymd :=
  nextDay^[k] d

/-- A well-formed calendar date. -/
def Ymd.valid (d : Ymd) : Prop :=
  1 ≤ d.month ∧ d.month ≤ 12 ∧ 1 ≤ d.day ∧ d.day ≤ daysInMonth d.year d.month

instance (d : Ymd) : Decidable d.valid := by
  unfold Ymd.valid; infer_instance

/-! ### Day status classification (PlanCalendar.tsx lines 71-85)

In the component both `date` and `today` are local midnights (`startDate` is
truncated with `setHours(0,0,0,0)` before `getDayDate` adds whole days), so
the `Date` comparison `date < today` is the chronological order on calendar
dates and `isSameDay` is date equality; both are modelled on `Ymd`. -/

/-- Chronological strict order on calendar dates. -/
def ymdLt (a b : Ymd) : Bool :=
  a.year < b.year ||
    (a.year = b.year && (a.month < b.month || (a.month = b.month && a.day < b.day)))

/-- Model of `isSameDay` (PlanCalendar.tsx lines 65-69). -/
def isSameDay (a b : Ymd) : Bool :=
  a.year = b.year && a.month = b.month && a.day = b.day

/-- Model of `getStatusColor` (PlanCalendar.tsx lines 71-85); the returned
class strings are the source's, in the source's precedence order. -/
def getStatusColor (day : DayPlan) (date today : Ymd) : String :=
  let allCompleted := day.tasks.length > 0 && day.tasks.all (fun t => t.isCompleted)
  if allCompleted then ("bg-emerald-50 text-emerald-900")
  else if ymdLt date today && !allCompleted then ("bg-red-50 text-red-900")
  else if isSameDay date today then ("bg-white text-indigo-900")
  else ("bg-white text-gray-700")

/-! ### Quiz scoring (QuizModal.tsx lines 64-70)

`userAnswers` is a JavaScript array with possible holes; a missing entry is
modelled as `none` and can never equal `some correctAnswerIndex`, exactly as
`undefined === q.correctAnswerIndex` is false. -/

/-- A quiz question. -/
structure QuizQuestion where
  question : String
  options : List String
  correctAnswerIndex : Int
  explanation : String
deriving Repr, DecidableEq

/-- The indexed `forEach` loop of `calculateScore`. -/
def scoreLoop : List QuizQuestion → Nat → List (Option Int) → Nat
  | [], _, _ => 0
  | q :: qs, idx, answers =>
    (if answers.getD idx none = some q.correctAnswerIndex then 1 else 0) +
      scoreLoop qs (idx + 1) answers

/-- Model of `calculateScore`. -/
def calculateScore (questions : List QuizQuestion) (userAnswers : List (Option Int)) :
    Nat :=
  scoreLoop questions 0 userAnswers

/-! ### Refinement day construction (geminiService.ts lines 124-189)

After `extractJson`, `updatePlanWithChat` rebuilds every day from the model
output alone.  A raw task entry is either a plain string or an object with a
`text` and an optional `resources` field (`t.resources` falsy — absent or
null — defaults to `[]`; an empty array is truthy and kept, which coincides
with the default).  The freshly synthesized id is
`task-<dayNumber>-<idx>-<Date.now()>`. -/

/-- A raw task entry as found in the parsed model output. -/
inductive RawTask where
  | strTask (text : String)
  | objTask (text : String) (resources : Option (List Resource))
deriving Repr, DecidableEq

/-- A raw day entry as found in the parsed model output. -/
structure RawDay where
  dayNumber : Int
  title : String
  description : String
  tasks : List RawTask
deriving Repr, DecidableEq

/-- The task constructor inside `updatePlanWithChat`. -/
def formatChatTask (dayNumber : Int) (idx : Nat) (now : Int) (t : RawTask) : Task :=
  { id := "task-" ++ toString dayNumber ++ "-" ++ toString idx ++ "-" ++ toString now
    text := match t with | .strTask s => s | .objTask s _ => s
    isCompleted := false
    resources := match t with | .strTask _ => [] | .objTask _ r => r.getD [] }

/-- The `updatedDays` construction of `updatePlanWithChat`: days are built
entirely from the model output; no `notes` or `sessions` key is produced. -/
def updatedChatDays (rawDays : List RawDay) (now : Int) : List DayPlan :=
  rawDays.map fun d =>
    { dayNumber := d.dayNumber
      title := d.title
      description := d.description
      tasks := d.tasks.enum.map fun p => formatChatTask d.dayNumber p.1 now p.2
      notes := none
      sessions := none }

/-- The successful return value of `updatePlanWithChat`: the current plan with
replaced days, recomputed duration, and refreshed `lastUpdated`. -/
def updatePlanWithChatResult (currentPlan : LearningPlan) (rawDays : List RawDay)
    (now : Int) (nowIso : String) : LearningPlan :=
  let updatedDays := updatedChatDays rawDays now
  { currentPlan with
    days := updatedDays
    durationDays := (updatedDays.length : Int)
    lastUpdated := nowIso }

/-! ## Theorems -/

/-! ### C4: calendar status classification -/

theorem getStatusColor_eq_ite (day : DayPlan) (date today : Ymd) :
    getStatusColor day date today =
      if (day.tasks.length > 0 && day.tasks.all fun t => t.isCompleted) then
        ("bg-emerald-50 text-emerald-900")
      else if ymdLt date today then ("bg-red-50 text-red-900")
      else if isSameDay date today then ("bg-white text-indigo-900")
      else ("bg-white text-gray-700") := by
  unfold getStatusColor
  by_cases h : (day.tasks.length > 0 && day.tasks.all fun t => t.isCompleted) = true
  · simp [h]
  · simp [h]

theorem allCompleted_iff (day : DayPlan) :
    (day.tasks.length > 0 && day.tasks.all fun t => t.isCompleted) = true ↔
      (day.tasks ≠ [] ∧ ∀ t ∈ day.tasks, t.isCompleted = true) := by
  simp [List.all_eq_true, List.length_pos]

/-- C4: the status classification follows the precedence completed, missed,
today, upcoming; a day is classified completed only when it has at least one
task and all its tasks are completed, so a day with zero tasks is never
classified completed. -/
theorem getStatusColor_spec (day : DayPlan) (date today : Ymd) :
    ((day.tasks ≠ [] ∧ ∀ t ∈ day.tasks, t.isCompleted = true) →
        getStatusColor day date today = "bg-emerald-50 text-emerald-900") ∧
    (¬(day.tasks ≠ [] ∧ ∀ t ∈ day.tasks, t.isCompleted = true) →
        ymdLt date today = true →
        getStatusColor day date today = "bg-red-50 text-red-900") ∧
    (¬(day.tasks ≠ [] ∧ ∀ t ∈ day.tasks, t.isCompleted = true) →
        ymdLt date today = false → isSameDay date today = true →
        getStatusColor day date today = "bg-white text-indigo-900") ∧
    (¬(day.tasks ≠ [] ∧ ∀ t ∈ day.tasks, t.isCompleted = true) →
        ymdLt date today = false → isSameDay date today = false →
        getStatusColor day date today = "bg-white text-gray-700") ∧
    (day.tasks = [] →
        getStatusColor day date today ≠ "bg-emerald-50 text-emerald-900") := by
  rw [getStatusColor_eq_ite] at *
  refine ⟨?_, ?_, ?_, ?_, ?_⟩
  · intro h
    rw [if_pos ((allCompleted_iff day).mpr h)]
  · intro h hlt
    rw [if_neg (fun hc => h ((allCompleted_iff day).mp hc)), if_pos hlt]
  · intro h hlt hsame
    rw [if_neg (fun hc => h ((allCompleted_iff day).mp hc)), hlt, if_neg (by simp), if_pos hsame]
  · intro h hlt hsame
    rw [if_neg (fun hc => h ((allCompleted_iff day).mp hc)), hlt, hsame]
    simp
  · intro h
    have hne : ¬(day.tasks ≠ [] ∧ ∀ t ∈ day.tasks, t.isCompleted = true) := by
      intro hc; exact hc.1 h
    rw [if_neg (fun hc => hne ((allCompleted_iff day).mp hc))]
    by_cases hlt : ymdLt date today = true
    · rw [if_pos hlt]; decide
    · rw [if_neg hlt]
      by_cases hsame : isSameDay date today = true
      · rw [if_pos hsame]; decide
      · rw [if_neg hsame]; decide

/-- Witness for `getStatusColor_spec` at a concrete day and dates. -/
theorem getStatusColor_spec_witness :
    getStatusColor
        { dayNumber := 1, title := "t", description := "d",
          tasks := [{ id := "task-1-0", text := "x", isCompleted := true, resources := [] }],
          notes := none, sessions := none }
        ⟨2024, 3, 5⟩ ⟨2024, 3, 6⟩ = "bg-emerald-50 text-emerald-900" :=
  (getStatusColor_spec _ _ _).1 (by constructor <;> simp)

/-! ### C8: quiz scoring -/

theorem scoreLoop_eq_countP (qs : List QuizQuestion) :
    ∀ (i : Nat) (ans : List (Option Int)),
      scoreLoop qs i ans =
        (List.enumFrom i qs).countP
          fun p => decide (ans.getD p.1 none = some p.2.correctAnswerIndex) := by
  induction qs with
  | nil => intro i ans; simp [scoreLoop]
  | cons q qs ih =>
    intro i ans
    rw [List.enumFrom_cons, List.countP_cons, scoreLoop, ih (i + 1) ans]
    by_cases h : ans[i]?.getD none = some q.correctAnswerIndex
    · simp [List.getD, h, Nat.add_comm]
    · simp [List.getD, h]

/-- C8: the computed quiz score equals the number of question indices whose
recorded answer equals that question's `correctAnswerIndex`, and is at most
the number of question indices that carry a recorded answer at all (an
unanswered question never counts). -/
theorem calculateScore_spec (questions : List QuizQuestion)
    (userAnswers : List (Option Int)) :
    calculateScore questions userAnswers =
      (questions.enum.countP
        fun p => decide (userAnswers.getD p.1 none = some p.2.correctAnswerIndex)) ∧
    calculateScore questions userAnswers ≤
      questions.enum.countP fun p => (userAnswers.getD p.1 none).isSome := by
  have h1 := scoreLoop_eq_countP questions 0 userAnswers
  constructor
  · exact h1
  · rw [calculateScore, h1]
    apply List.countP_mono_left
    intro p _ hp
    have : userAnswers.getD p.1 none = some p.2.correctAnswerIndex := of_decide_eq_true hp
    rw [this]
    rfl

/-! ### C2: the auto-select-today effect

The App effect compares the midnight-truncated `today` against the raw
`startDate` instant.  Writing the start instant as `startMid + τ` (its local
midnight plus the time of day, `0 ≤ τ < 86400000`) and today as
`startMid + k` days, the effect selects day `k + 1` whenever `1 ≤ k` (or
`τ = 0`) and `k < days.length` — but on the start date itself (`k = 0`) it
selects nothing unless the plan was created at exactly local midnight,
because `today >= startDate` fails. -/

/-- C2 (amended): the day numbered (elapsed days + 1) is auto-selected for
every in-range day strictly after the start date, and on the start date
exactly when the start timestamp is a local midnight. -/
theorem autoSelectDay_spec (startMid τ : Int) (k : Nat) (days : List DayPlan)
    (hτ0 : 0 ≤ τ) (hτ1 : τ < 86400000) :
    ((1 ≤ k ∨ τ = 0) → k < days.length →
        autoSelectDay (startMid + τ) (startMid + (k : Int) * 86400000) days
          = days.find? fun d => d.dayNumber = (k : Int) + 1) ∧
    (τ ≠ 0 → autoSelectDay (startMid + τ) startMid days = none) := by
  constructor
  · intro hk hlen
    have harg : startMid + (k : Int) * 86400000 - (startMid + τ) = (k : Int) * 86400000 - τ := by
      ring
    have hdd : (((k : Int) * 86400000 - τ).natAbs + (86400000 - 1)) / 86400000 = k := by
      omega
    have hguard : startMid + τ ≤ startMid + (k : Int) * 86400000 ∧ k < days.length :=
      ⟨by omega, hlen⟩
    simp only [autoSelectDay, msPerDay, harg, hdd, if_pos hguard]
  · intro hτ
    unfold autoSelectDay
    rw [if_neg]
    intro hc
    have := hc.1
    omega

/-- A one-day plan used in the C2 counterexample and witnesses. -/
def soloDay : DayPlan :=
  { dayNumber := 1, title := "Day 1", description := "", tasks := [],
    notes := none, sessions := none }

/-- C2 counterexample: a plan whose start timestamp is noon of day zero
(43200000 ms) and whose span covers today (midnight of day zero, 0 ms):
today's date equals the start date, so the claim requires day 1 to be
auto-selected, but the effect selects nothing because
`today >= startDate` compares the midnight against the noon instant. -/
theorem autoSelectDay_counterexample :
    autoSelectDay 43200000 0 [soloDay] = none ∧
    autoSelectDay 43200000 0 [soloDay] ≠ some soloDay := by
  constructor <;> decide

/-- Witness for `autoSelectDay_spec`: a midnight-started one-day plan opened
on its start date selects day 1. -/
theorem autoSelectDay_spec_witness :
    autoSelectDay (0 + 0) (0 + ((0 : Nat) : Int) * 86400000) [soloDay] = some soloDay := by
  have h := (autoSelectDay_spec 0 0 0 [soloDay] (by decide) (by decide)).1
    (Or.inr rfl) (by decide)
  rw [h]
  decide

/-! ### C5: day-number to calendar-date mapping -/

theorem normDom_base (y : Int) (m : Nat) (d : Nat) (h : d ≤ daysInMonth y m) :
    normDom y m d = ⟨y, m, d⟩ := by
  rw [normDom, if_pos h]

theorem normDom_succ (d : Nat) :
    ∀ (y : Int) (m : Nat), 1 ≤ m → m ≤ 12 → 1 ≤ d →
      normDom y m (d + 1) = nextDay (normDom y m d) := by
  induction d using Nat.strong_induction_on with
  | _ d ih =>
    intro y m hm1 hm2 hd
    by_cases h1 : d + 1 ≤ daysInMonth y m
    · rw [normDom_base y m (d + 1) h1, normDom_base y m d (by omega)]
      rw [nextDay, if_pos (show d < daysInMonth y m by omega)]
    · by_cases h2 : d = daysInMonth y m
      · rw [normDom_base y m d (by omega)]
        by_cases h3 : m < 12
        · rw [normDom, if_neg h1, if_pos h3]
          have hsub : d + 1 - daysInMonth y m = 1 := by omega
          rw [hsub, normDom_base y (m + 1) 1 (daysInMonth_pos y (m + 1))]
          rw [nextDay, if_neg (show ¬d < daysInMonth y m by omega), if_pos h3]
        · have hm12 : m = 12 := by omega
          rw [normDom, if_neg h1, if_neg h3]
          have hsub : d + 1 - daysInMonth y 12 = 1 := by
            rw [← hm12]; omega
          rw [hsub, normDom_base (y + 1) 1 1 (daysInMonth_pos (y + 1) 1)]
          rw [nextDay, if_neg (show ¬d < daysInMonth y m by omega), if_neg h3]
      · have hgt : daysInMonth y m < d := by omega
        by_cases h3 : m < 12
        · have hL : normDom y m (d + 1) = normDom y (m + 1) (d + 1 - daysInMonth y m) := by
            rw [normDom, if_neg h1, if_pos h3]
          have hR : normDom y m d = normDom y (m + 1) (d - daysInMonth y m) := by
            rw [normDom, if_neg (show ¬d ≤ daysInMonth y m by omega), if_pos h3]
          have hsub : d + 1 - daysInMonth y m = (d - daysInMonth y m) + 1 := by omega
          rw [hL, hR, hsub]
          exact ih (d - daysInMonth y m) (by have := daysInMonth_pos y m; omega)
            y (m + 1) (by omega) (by omega) (by omega)
        · have hm12 : m = 12 := by omega
          have hL : normDom y m (d + 1) = normDom (y + 1) 1 (d + 1 - daysInMonth y 12) := by
            rw [normDom, if_neg h1, if_neg h3]
          have hR : normDom y m d = normDom (y + 1) 1 (d - daysInMonth y 12) := by
            rw [normDom, if_neg (show ¬d ≤ daysInMonth y m by omega), if_neg h3]
          have hpos := daysInMonth_pos y 12
          have hgt12 : daysInMonth y 12 < d := hm12 ▸ hgt
          have hsub : d + 1 - daysInMonth y 12 = (d - daysInMonth y 12) + 1 := by omega
          rw [hL, hR, hsub]
          exact ih (d - daysInMonth y 12) (by omega) (y + 1) 1 (by omega) (by omega) (by omega)

theorem normDom_addDays (y : Int) (m : Nat) (d : Nat) (k : Nat)
    (hm1 : 1 ≤ m) (hm2 : m ≤ 12) (hd1 : 1 ≤ d) (hd2 : d ≤ daysInMonth y m) :
    normDom y m (d + k) = addDays ⟨y, m, d⟩ k := by
  induction k with
  | zero => rw [Nat.add_zero, normDom_base y m d hd2, addDays, Function.iterate_zero_apply]
  | succ k ih =>
    rw [show d + (k + 1) = (d + k) + 1 by omega,
      normDom_succ (d + k) y m hm1 hm2 (by omega), ih, addDays, addDays,
      Function.iterate_succ_apply']

/-- C5: the day-number to calendar-date mapping is a pure function of the
start date: for every valid start date and every day number `N ≥ 1`, day `N`
maps to the start date plus `N - 1` calendar days (iterated calendar
successor, so month and year boundaries are crossed correctly), and day 1
maps exactly to the start date. -/
theorem getDayDate_spec (start : Ymd) (N : Nat) (hv : start.valid) (hN : 1 ≤ N) :
    getDayDate start N = addDays start (N - 1) ∧ getDayDate start 1 = start := by
  obtain ⟨yy, mm, dd⟩ := start
  obtain ⟨hm1, hm2, hd1, hd2⟩ := hv
  constructor
  · rw [getDayDate, show dd + N - 1 = dd + (N - 1) by omega]
    exact normDom_addDays yy mm dd (N - 1) hm1 hm2 hd1 hd2
  · rw [getDayDate, show dd + 1 - 1 = dd by omega, normDom_base yy mm dd hd2]

/-- Witness for `getDayDate_spec`, checking the spec's own example: a plan
starting Jan 30, 2023 (a non-leap year) has day 5 on Feb 3, 2023. -/
theorem getDayDate_spec_witness :
    getDayDate ⟨2023, 1, 30⟩ 5 = addDays ⟨2023, 1, 30⟩ 4 ∧
    getDayDate ⟨2023, 1, 30⟩ 1 = ⟨2023, 1, 30⟩ ∧
    getDayDate ⟨2023, 1, 30⟩ 5 = ⟨2023, 2, 3⟩ := by
  have h := getDayDate_spec ⟨2023, 1, 30⟩ 5 (by decide) (by decide)
  refine ⟨h.1, h.2, ?_⟩
  rw [h.1]
  show nextDay^[4] ⟨2023, 1, 30⟩ = ⟨2023, 2, 3⟩
  decide

/-! ### C6: session toggling -/

theorem set_last_eq_dropLast_concat {α : Type} (x : α) :
    ∀ (l : List α), l ≠ [] → l.set (l.length - 1) x = l.dropLast ++ [x] := by
  intro l
  induction l with
  | nil => intro h; exact absurd rfl h
  | cons a t ih =>
    intro _
    cases t with
    | nil => rfl
    | cons b t2 =>
      show (a :: b :: t2).set (t2.length + 1) x = _
      rw [show (a :: b :: t2).set (t2.length + 1) x = a :: (b :: t2).set t2.length x from rfl,
        show t2.length = (b :: t2).length - 1 from by simp,
        ih (List.cons_ne_nil b t2)]
      rfl

/-- C6: `toggleSessions` alternates open and close.  On an empty session list
or one whose last session is closed, it appends a fresh open session starting
now; when the last session is open, it closes exactly that session by
stamping `now` as its end (the prefix `dropLast` is untouched, so no other
session is modified), and the closed session satisfies end ≥ start whenever
the clock did not go backwards. -/
theorem toggleSessions_spec (l : List Session) (now : Int) :
    (l = [] → toggleSessions l now = [{ start := now, «end» := none }]) ∧
    (∀ s, l.getLast? = some s → s.«end» ≠ none →
        toggleSessions l now = l ++ [{ start := now, «end» := none }]) ∧
    (∀ s, l.getLast? = some s → s.«end» = none →
        toggleSessions l now = l.dropLast ++ [{ start := s.start, «end» := some now }] ∧
        (s.start ≤ now →
          ∃ e, ({ start := s.start, «end» := some now } : Session).«end» = some e ∧
            ({ start := s.start, «end» := some now } : Session).start ≤ e)) ∧
    (∀ (n : Int) (d : DayPlan), d.dayNumber = n →
        toggleSessionInDay n now d
          = { d with sessions := some (toggleSessions (d.sessions.getD []) now) }) ∧
    (∀ (n : Int) (d : DayPlan), d.dayNumber ≠ n → toggleSessionInDay n now d = d) := by
  refine ⟨?_, ?_, ?_, ?_, ?_⟩
  · intro h
    subst h
    rfl
  · intro s hs hne
    simp only [toggleSessions, hs]
    rw [if_neg hne]
  · intro s hs he
    obtain ⟨st, en⟩ := s
    have he2 : en = none := he
    subst he2
    refine ⟨?_, fun hle => ⟨now, rfl, hle⟩⟩
    have hne : l ≠ [] := by
      intro h
      subst h
      simp at hs
    simp only [toggleSessions, hs]
    rw [if_pos trivial]
    exact set_last_eq_dropLast_concat _ l hne
  · intro n d hdn
    simp [toggleSessionInDay, hdn]
  · intro n d hdn
    simp [toggleSessionInDay, hdn]

/-- Witness for `toggleSessions_spec`: toggling with no sessions opens one;
toggling again closes that same session with end ≥ start. -/
theorem toggleSessions_spec_witness :
    toggleSessions [] 5 = [{ start := 5, «end» := none }] ∧
    toggleSessions [{ start := 3, «end» := none }] 7 = [{ start := 3, «end» := some 7 }] := by
  constructor
  · exact (toggleSessions_spec [] 5).1 rfl
  · have h := ((toggleSessions_spec [{ start := 3, «end» := none }] 7).2.2.1
      { start := 3, «end» := none } rfl rfl).1
    simpa using h

/-! ### C7: the open-session invariant over reachable stores -/

/-- The open-session invariant for one session list: every open session
(`end = none`) sits at the last index.  This gives both halves at once:
there is at most one open session (two open indices would both have to be
the last one) and an open session is the last element. -/
def openInv (l : List Session) : Prop :=
  ∀ i, (h : i < l.length) → l[i].«end» = none → i + 1 = l.length

/-- The open-session invariant for one day (`sessions` absent means none). -/
def dayInv (d : DayPlan) : Prop :=
  openInv (d.sessions.getD [])

/-- The open-session invariant for all days of a plan. -/
def planInv (p : LearningPlan) : Prop :=
  ∀ d ∈ p.days, dayInv d

/-- The open-session invariant for all plans of the store. -/
def storeInv (s : Store) : Prop :=
  ∀ p ∈ s.plans, planInv p

theorem openInv_nil : openInv [] := by
  intro i hi
  simp at hi

theorem openInv_toggleSessions (l : List Session) (now : Int) (h : openInv l) :
    openInv (toggleSessions l now) := by
  cases hl : l.getLast? with
  | none =>
    have hnil : l = [] := List.getLast?_eq_none_iff.mp hl
    subst hnil
    intro i hi hopen
    simp [toggleSessions] at hi ⊢
    exact hi
  | some s =>
    have hne : l ≠ [] := by
      intro hn
      subst hn
      simp at hl
    have hpos : 0 < l.length := List.length_pos.mpr hne
    by_cases hop : s.«end» = none
    · have heq : toggleSessions l now =
          l.set (l.length - 1) { s with «end» := some now } := by
        simp only [toggleSessions, hl, if_pos hop]
      rw [heq]
      intro i hi hoi
      rw [List.length_set] at hi ⊢
      by_cases hieq : i = l.length - 1
      · omega
      · rw [List.getElem_set_ne (fun hc => hieq hc.symm)] at hoi
        exact h i hi hoi
    · have heq : toggleSessions l now = l ++ [{ start := now, «end» := none }] := by
        simp only [toggleSessions, hl]
        rw [if_neg hop]
      rw [heq]
      intro i hi hoi
      rw [List.length_append, List.length_singleton] at hi ⊢
      by_cases hieq : i = l.length
      · omega
      · have hilt : i < l.length := by omega
        rw [List.getElem_append_left hilt] at hoi
        have hlast := h i hilt hoi
        have hgl := List.getLast?_eq_getLast_of_ne_nil hne
        rw [hl] at hgl
        have hseq : s = l.getLast hne := by injection hgl
        rw [List.getLast_eq_getElem] at hseq
        have : l[i] = s := by
          rw [hseq]
          congr 1
          omega
        rw [this] at hoi
        exact absurd hoi hop

theorem dayInv_toggleTaskInDay (n : Int) (tid : String) (d : DayPlan)
    (h : dayInv d) : dayInv (toggleTaskInDay n tid d) := by
  unfold toggleTaskInDay
  split
  · exact h
  · exact h

theorem dayInv_updateNotesInDay (n : Int) (txt : String) (d : DayPlan)
    (h : dayInv d) : dayInv (updateNotesInDay n txt d) := by
  unfold updateNotesInDay
  split
  · exact h
  · exact h

theorem dayInv_toggleSessionInDay (n : Int) (now : Int) (d : DayPlan)
    (h : dayInv d) : dayInv (toggleSessionInDay n now d) := by
  unfold toggleSessionInDay
  split
  · exact h
  · exact openInv_toggleSessions _ now h

theorem planInv_map_days (f : DayPlan → DayPlan)
    (hf : ∀ d, dayInv d → dayInv (f d)) (p : LearningPlan) (h : planInv p) :
    planInv { p with days := p.days.map f } := by
  intro d hd
  obtain ⟨d0, hd0, rfl⟩ := List.mem_map.mp hd
  exact hf d0 (h d0 hd0)

/-- The step relation of the store: every mutation the application performs.
The plans handed to `handleCreatePlan` and `handleUpdatePlan` come from
`generateLearningPlan` and `updatePlanWithChat` (via PlanWizard and
EditPlanModal), whose day constructors emit no `sessions` key — this is the
hypothesis of the `createPlan` and `updatePlan` steps. -/
inductive Step : Store → Store → Prop where
  | toggleTask (s : Store) (n : Int) (tid : String) :
      Step s { plans := handleToggleTask s.activePlanId s.plans n tid,
               activePlanId := s.activePlanId }
  | updateNotes (s : Store) (n : Int) (txt : String) :
      Step s { plans := handleUpdateNotes s.activePlanId s.plans n txt,
               activePlanId := s.activePlanId }
  | toggleSession (s : Store) (n : Int) (now : Int) :
      Step s { plans := handleSessionToggle s.activePlanId s.plans n now,
               activePlanId := s.activePlanId }
  | createPlan (s : Store) (p : LearningPlan) (h : ∀ d ∈ p.days, d.sessions = none) :
      Step s (handleCreatePlan p s)
  | deletePlan (s : Store) (id : String) :
      Step s (handleDeletePlan id s)
  | updatePlan (s : Store) (p : LearningPlan) (h : ∀ d ∈ p.days, d.sessions = none) :
      Step s { plans := handleUpdatePlan p s.plans, activePlanId := s.activePlanId }

theorem planInv_of_no_sessions (p : LearningPlan)
    (h : ∀ d ∈ p.days, d.sessions = none) : planInv p := by
  intro d hd
  unfold dayInv
  rw [h d hd]
  exact openInv_nil

theorem storeInv_step {a b : Store} (hstep : Step a b) (h : storeInv a) :
    storeInv b := by
  cases hstep with
  | toggleTask n tid =>
    intro p hp
    unfold handleToggleTask at hp
    cases haid : a.activePlanId with
    | none => rw [haid] at hp; exact h p hp
    | some aid =>
      rw [haid] at hp
      obtain ⟨p0, hp0, rfl⟩ := List.mem_map.mp hp
      unfold toggleTaskInPlan
      split
      · exact h p0 hp0
      · exact planInv_map_days _ (dayInv_toggleTaskInDay n tid) p0 (h p0 hp0)
  | updateNotes n txt =>
    intro p hp
    unfold handleUpdateNotes at hp
    cases haid : a.activePlanId with
    | none => rw [haid] at hp; exact h p hp
    | some aid =>
      rw [haid] at hp
      obtain ⟨p0, hp0, rfl⟩ := List.mem_map.mp hp
      unfold updateNotesInPlan
      split
      · exact h p0 hp0
      · exact planInv_map_days _ (dayInv_updateNotesInDay n txt) p0 (h p0 hp0)
  | toggleSession n now =>
    intro p hp
    unfold handleSessionToggle at hp
    cases haid : a.activePlanId with
    | none => rw [haid] at hp; exact h p hp
    | some aid =>
      rw [haid] at hp
      obtain ⟨p0, hp0, rfl⟩ := List.mem_map.mp hp
      unfold toggleSessionInPlan
      split
      · exact h p0 hp0
      · exact planInv_map_days _ (dayInv_toggleSessionInDay n now) p0 (h p0 hp0)
  | createPlan p hsess =>
    intro q hq
    cases hq with
    | head => exact planInv_of_no_sessions p hsess
    | tail _ hmem => exact h q hmem
  | deletePlan id =>
    intro p hp
    exact h p (List.mem_of_mem_filter hp)
  | updatePlan p hsess =>
    intro q hq
    unfold handleUpdatePlan at hq
    obtain ⟨q0, hq0, rfl⟩ := List.mem_map.mp hq
    split
    · exact planInv_of_no_sessions p hsess
    · exact h q0 hq0

/-- The empty store the application starts from. -/
def initialStore : Store :=
  { plans := [], activePlanId := none }

/-- C7: in every store state reachable from the empty store through the
application's operations (toggleTask, updateNotes, toggleSession, createPlan,
deletePlan, and plan replacement after refinement), every day satisfies the
open-session invariant: every open session is the last element of its day's
session list, hence there is at most one open session per day. -/
theorem storeInv_reachable (s : Store)
    (h : Relation.ReflTransGen Step initialStore s) : storeInv s := by
  induction h with
  | refl =>
    intro p hp
    simp [initialStore] at hp
  | tail _ hstep ih => exact storeInv_step hstep ih

/-- A plan as produced by the wizard: days carry no sessions. -/
def wizardPlan : LearningPlan :=
  { id := "plan-1", topic := "Lean", durationDays := 1, dailyTime := "30 mins",
    startDate := "2024-01-01T12:00:00.000Z", lastUpdated := "2024-01-01T12:00:00.000Z",
    days := [{ dayNumber := 1, title := "Day 1", description := "", tasks := [],
               notes := none, sessions := none }] }

/-- Witness for `storeInv_reachable`: the store reached by creating one
wizard plan and starting a session on its day satisfies the invariant. -/
theorem storeInv_reachable_witness :
    storeInv { plans := handleSessionToggle
                 (handleCreatePlan wizardPlan initialStore).activePlanId
                 (handleCreatePlan wizardPlan initialStore).plans 1 1000,
               activePlanId := (handleCreatePlan wizardPlan initialStore).activePlanId } :=
  storeInv_reachable _
    (Relation.ReflTransGen.tail
      (Relation.ReflTransGen.single (Step.createPlan initialStore wizardPlan (by decide)))
      (Step.toggleSession (handleCreatePlan wizardPlan initialStore) 1 1000))

/-! ### C9: toggleTask algebra -/

theorem toggleTaskInTask_invol (tid : String) (t : Task) :
    toggleTaskInTask tid (toggleTaskInTask tid t) = t := by
  unfold toggleTaskInTask
  by_cases hc : t.id = tid
  · rw [if_pos hc]
    rw [if_pos (show ({ t with isCompleted := !t.isCompleted } : Task).id = tid from hc)]
    cases t
    simp
  · rw [if_neg hc, if_neg hc]

theorem toggleTaskInDay_invol (n : Int) (tid : String) (d : DayPlan) :
    toggleTaskInDay n tid (toggleTaskInDay n tid d) = d := by
  unfold toggleTaskInDay
  by_cases hc : d.dayNumber ≠ n
  · rw [if_pos hc, if_pos hc]
  · rw [if_neg hc]
    rw [if_neg (show ¬({ d with tasks := d.tasks.map (toggleTaskInTask tid) } : DayPlan).dayNumber ≠ n from hc)]
    have : (d.tasks.map (toggleTaskInTask tid)).map (toggleTaskInTask tid) = d.tasks := by
      rw [List.map_map]
      conv_rhs => rw [← List.map_id d.tasks]
      exact List.map_congr_left fun t _ => toggleTaskInTask_invol tid t
    simp only [this]

theorem toggleTaskInPlan_invol (aid : String) (n : Int) (tid : String)
    (p : LearningPlan) : toggleTaskInPlan aid n tid (toggleTaskInPlan aid n tid p) = p := by
  unfold toggleTaskInPlan
  by_cases hc : p.id ≠ aid
  · rw [if_pos hc, if_pos hc]
  · rw [if_neg hc]
    rw [if_neg (show ¬({ p with days := p.days.map (toggleTaskInDay n tid) } : LearningPlan).id ≠ aid from hc)]
    have : (p.days.map (toggleTaskInDay n tid)).map (toggleTaskInDay n tid) = p.days := by
      rw [List.map_map]
      conv_rhs => rw [← List.map_id p.days]
      exact List.map_congr_left fun d _ => toggleTaskInDay_invol n tid d
    simp only [this]

theorem map_keyed_update_eq_set {α β : Type} [DecidableEq β] (key : α → β) (f : α → α) :
    ∀ (l : List α) (i : Nat) (hi : i < l.length), (l.map key).Nodup →
      l.map (fun x => if key x = key (l.get ⟨i, hi⟩) then f x else x)
        = l.set i (f (l.get ⟨i, hi⟩)) := by
  intro l
  induction l with
  | nil => intro i hi _; simp at hi
  | cons a t ih =>
    intro i hi hnd
    rw [List.map_cons, List.nodup_cons] at hnd
    obtain ⟨hka, hndt⟩ := hnd
    cases i with
    | zero =>
      show (a :: t).map (fun x => if key x = key a then f x else x) = f a :: t
      rw [List.map_cons, if_pos rfl]
      congr 1
      conv_rhs => rw [← List.map_id t]
      refine List.map_congr_left fun x hx => ?_
      rw [if_neg fun hc => hka (by rw [← hc]; exact List.mem_map_of_mem key hx)]
      rfl
    | succ j =>
      have hj : j < t.length := by simpa using hi
      show (a :: t).map (fun x => if key x = key (t.get ⟨j, hj⟩) then f x else x)
        = a :: t.set j (f (t.get ⟨j, hj⟩))
      rw [List.map_cons]
      congr 1
      · rw [if_neg fun hc =>
          hka (by rw [hc]; exact List.mem_map_of_mem key (t.get_mem j hj))]
      · exact ih j hj hndt

/-- C9: toggling the same (day, task) pair twice restores the store exactly;
a toggle is a no-op when no task with that pair exists in the active plan;
and under the data-model uniqueness invariants (unique plan ids, unique day
numbers, unique task ids per day) a single toggle rewrites the store at
exactly one position: the matching task's completion flag is flipped and
everything else is untouched. -/
theorem handleToggleTask_spec (activePlanId : Option String)
    (plans : List LearningPlan) (n : Int) (tid : String) :
    (handleToggleTask activePlanId (handleToggleTask activePlanId plans n tid) n tid
        = plans) ∧
    ((∀ p ∈ plans, activePlanId = some p.id →
        ∀ d ∈ p.days, d.dayNumber = n → ∀ t ∈ d.tasks, t.id ≠ tid) →
      handleToggleTask activePlanId plans n tid = plans) ∧
    (∀ (i : Nat) (hi : i < plans.length)
        (j : Nat) (hj : j < (plans.get ⟨i, hi⟩).days.length)
        (k : Nat) (hk : k < ((plans.get ⟨i, hi⟩).days.get ⟨j, hj⟩).tasks.length),
      activePlanId = some (plans.get ⟨i, hi⟩).id →
      ((plans.get ⟨i, hi⟩).days.get ⟨j, hj⟩).dayNumber = n →
      (((plans.get ⟨i, hi⟩).days.get ⟨j, hj⟩).tasks.get ⟨k, hk⟩).id = tid →
      (plans.map fun p => p.id).Nodup →
      ((plans.get ⟨i, hi⟩).days.map fun d => d.dayNumber).Nodup →
      (((plans.get ⟨i, hi⟩).days.get ⟨j, hj⟩).tasks.map fun t => t.id).Nodup →
      handleToggleTask activePlanId plans n tid =
        plans.set i
          { plans.get ⟨i, hi⟩ with
            days := (plans.get ⟨i, hi⟩).days.set j
              { (plans.get ⟨i, hi⟩).days.get ⟨j, hj⟩ with
                tasks := ((plans.get ⟨i, hi⟩).days.get ⟨j, hj⟩).tasks.set k
                  { ((plans.get ⟨i, hi⟩).days.get ⟨j, hj⟩).tasks.get ⟨k, hk⟩ with
                    isCompleted :=
                      !(((plans.get ⟨i, hi⟩).days.get ⟨j, hj⟩).tasks.get ⟨k, hk⟩).isCompleted } } }) := by
  refine ⟨?_, ?_, ?_⟩
  · cases activePlanId with
    | none => rfl
    | some aid =>
      show (plans.map (toggleTaskInPlan aid n tid)).map (toggleTaskInPlan aid n tid) = plans
      rw [List.map_map]
      conv_rhs => rw [← List.map_id plans]
      exact List.map_congr_left fun p _ => toggleTaskInPlan_invol aid n tid p
  · intro hno
    cases activePlanId with
    | none => rfl
    | some aid =>
      show plans.map (toggleTaskInPlan aid n tid) = plans
      conv_rhs => rw [← List.map_id plans]
      refine List.map_congr_left fun p hp => ?_
      unfold toggleTaskInPlan
      by_cases hc : p.id ≠ aid
      · rw [if_pos hc]; rfl
      · rw [if_neg hc]
        have hc2 : p.id = aid := not_not.mp hc
        have hquiet : ∀ d ∈ p.days, d.dayNumber = n → ∀ t ∈ d.tasks, t.id ≠ tid :=
          hno p hp (by rw [hc2])
        have hdays : p.days.map (toggleTaskInDay n tid) = p.days := by
          conv_rhs => rw [← List.map_id p.days]
          refine List.map_congr_left fun d hd => ?_
          unfold toggleTaskInDay
          by_cases hdn : d.dayNumber ≠ n
          · rw [if_pos hdn]; rfl
          · rw [if_neg hdn]
            have htasks : d.tasks.map (toggleTaskInTask tid) = d.tasks := by
              conv_rhs => rw [← List.map_id d.tasks]
              refine List.map_congr_left fun t ht => ?_
              unfold toggleTaskInTask
              rw [if_neg (hquiet d hd (not_not.mp hdn) t ht)]
              rfl
            simp only [htasks]
            rfl
        simp only [hdays]
        rfl
  · intro i hi j hj k hk haid hdn htid hnd1 hnd2 hnd3
    cases activePlanId with
    | none => exact absurd haid (by simp)
    | some aid =>
      have haid2 : aid = (plans.get ⟨i, hi⟩).id := by injection haid
      subst haid2 hdn htid
      show plans.map (toggleTaskInPlan (plans.get ⟨i, hi⟩).id
          ((plans.get ⟨i, hi⟩).days.get ⟨j, hj⟩).dayNumber
          (((plans.get ⟨i, hi⟩).days.get ⟨j, hj⟩).tasks.get ⟨k, hk⟩).id) = _
      have hplan : plans.map (toggleTaskInPlan (plans.get ⟨i, hi⟩).id
          ((plans.get ⟨i, hi⟩).days.get ⟨j, hj⟩).dayNumber
          (((plans.get ⟨i, hi⟩).days.get ⟨j, hj⟩).tasks.get ⟨k, hk⟩).id)
          = plans.map fun x =>
              if x.id = (plans.get ⟨i, hi⟩).id then
                { x with days := x.days.map (toggleTaskInDay
                    ((plans.get ⟨i, hi⟩).days.get ⟨j, hj⟩).dayNumber
                    (((plans.get ⟨i, hi⟩).days.get ⟨j, hj⟩).tasks.get ⟨k, hk⟩).id) }
              else x := by
        refine List.map_congr_left fun x _ => ?_
        unfold toggleTaskInPlan
        rw [ite_not]
      rw [hplan, map_keyed_update_eq_set (fun p => p.id) _ plans i hi hnd1]
      congr 1
      have hday : ((plans.get ⟨i, hi⟩).days.map (toggleTaskInDay
          ((plans.get ⟨i, hi⟩).days.get ⟨j, hj⟩).dayNumber
          (((plans.get ⟨i, hi⟩).days.get ⟨j, hj⟩).tasks.get ⟨k, hk⟩).id))
          = (plans.get ⟨i, hi⟩).days.map fun x =>
              if x.dayNumber = ((plans.get ⟨i, hi⟩).days.get ⟨j, hj⟩).dayNumber then
                { x with tasks := x.tasks.map (toggleTaskInTask
                    (((plans.get ⟨i, hi⟩).days.get ⟨j, hj⟩).tasks.get ⟨k, hk⟩).id) }
              else x := by
        refine List.map_congr_left fun x _ => ?_
        unfold toggleTaskInDay
        rw [ite_not]
      have htask : ((plans.get ⟨i, hi⟩).days.get ⟨j, hj⟩).tasks.map
          (toggleTaskInTask (((plans.get ⟨i, hi⟩).days.get ⟨j, hj⟩).tasks.get ⟨k, hk⟩).id)
          = ((plans.get ⟨i, hi⟩).days.get ⟨j, hj⟩).tasks.set k
              { ((plans.get ⟨i, hi⟩).days.get ⟨j, hj⟩).tasks.get ⟨k, hk⟩ with
                isCompleted :=
                  !(((plans.get ⟨i, hi⟩).days.get ⟨j, hj⟩).tasks.get ⟨k, hk⟩).isCompleted } := by
        have hgen := map_keyed_update_eq_set (fun t => t.id)
          (fun t => { t with isCompleted := !t.isCompleted })
          ((plans.get ⟨i, hi⟩).days.get ⟨j, hj⟩).tasks k hk hnd3
        unfold toggleTaskInTask
        exact hgen
      rw [hday, map_keyed_update_eq_set (fun d => d.dayNumber) _ _ j hj hnd2]
      congr 2
      rw [htask]

/-- A sample task for the C9 witness. -/
def demoTask : Task :=
  { id := "task-1-0", text := "read the tutorial", isCompleted := false, resources := [] }

/-- A sample day for the C9 witness. -/
def demoDay : DayPlan :=
  { dayNumber := 1, title := "Day 1", description := "", tasks := [demoTask],
    notes := none, sessions := none }

/-- A sample plan for the C9 witness. -/
def demoPlan : LearningPlan :=
  { id := "plan-1", topic := "Lean", durationDays := 1, dailyTime := "30 mins",
    startDate := "2024-01-01T00:00:00.000Z", lastUpdated := "2024-01-01T00:00:00.000Z",
    days := [demoDay] }

/-- The plan of the C9 witness after its one task has been toggled. -/
def demoPlanToggled : LearningPlan :=
  { demoPlan with
    days := [{ demoDay with tasks := [{ demoTask with isCompleted := true }] }] }

/-- Witness for `handleToggleTask_spec`: on a concrete one-plan store, a
double toggle restores the store and a single toggle flips the one task. -/
theorem handleToggleTask_spec_witness :
    handleToggleTask (some ("plan-1"))
        (handleToggleTask (some ("plan-1")) [demoPlan] 1 "task-1-0") 1 "task-1-0"
      = [demoPlan] ∧
    handleToggleTask (some ("plan-1")) [demoPlan] 1 "task-1-0" = [demoPlanToggled] := by
  constructor
  · exact (handleToggleTask_spec (some ("plan-1")) [demoPlan] 1 "task-1-0").1
  · have h := (handleToggleTask_spec (some ("plan-1")) [demoPlan] 1 "task-1-0").2.2
      0 (by decide) 0 (by decide) 0 (by decide) rfl rfl rfl
      (by decide) (by decide) (by decide)
    exact h.trans rfl

/-! ### C10: refinement rebuilds days from model output alone -/

/-- C10: every day returned by a successful `updatePlanWithChat` carries no
notes and no sessions, and every task in it has `isCompleted = false` and an
id freshly synthesized as `task-<dayNumber>-<idx>-<now>` — all prior
completion state, notes, and tracked sessions are discarded. -/
theorem updatePlanWithChat_resets (currentPlan : LearningPlan)
    (rawDays : List RawDay) (now : Int) (nowIso : String) :
    ∀ d ∈ (updatePlanWithChatResult currentPlan rawDays now nowIso).days,
      d.notes = none ∧ d.sessions = none ∧
      ∀ k, (hk : k < d.tasks.length) →
        (d.tasks.get ⟨k, hk⟩).isCompleted = false ∧
        (d.tasks.get ⟨k, hk⟩).id =
          "task-" ++ toString d.dayNumber ++ "-" ++ toString k ++ "-" ++ toString now := by
  intro d hd
  have hd2 : d ∈ updatedChatDays rawDays now := hd
  obtain ⟨r, _, rfl⟩ := List.mem_map.mp hd2
  refine ⟨rfl, rfl, ?_⟩
  intro k hk
  have hklen : k < r.tasks.enum.length := by simpa using hk
  rw [List.get_eq_getElem, List.getElem_map, List.getElem_enum]
  exact ⟨rfl, rfl⟩

/-- A raw refinement day used in the C10 witness. -/
def demoRawDay : RawDay :=
  { dayNumber := 2, title := "Day 2", description := "practice",
    tasks := [RawTask.strTask ("read the docs"),
              RawTask.objTask ("watch the talk") (some [{ title := "Talk", url := "https://example.org/talk", type := "video" }])] }

/-- Witness for `updatePlanWithChat_resets` at a concrete refinement. -/
theorem updatePlanWithChat_resets_witness :
    ((updatePlanWithChatResult demoPlan [demoRawDay] 99 ("later")).days.get
        ⟨0, by decide⟩).notes = none ∧
    ((updatePlanWithChatResult demoPlan [demoRawDay] 99 ("later")).days.get
        ⟨0, by decide⟩).sessions = none ∧
    (((updatePlanWithChatResult demoPlan [demoRawDay] 99 ("later")).days.get
        ⟨0, by decide⟩).tasks.get ⟨0, by decide⟩).isCompleted = false := by
  have h := updatePlanWithChat_resets demoPlan [demoRawDay] 99 ("later")
    ((updatePlanWithChatResult demoPlan [demoRawDay] 99 ("later")).days.get ⟨0, by decide⟩)
    (List.get_mem _ 0 (by decide))
  exact ⟨h.1, h.2.1, (h.2.2 0 (by decide)).1⟩

/-! ### C1 and C3: the strategy order and failure behaviour of `extractJson`

The parse attempted inside the `try` block: the content of the fenced code
block when the regex matches, the raw text only when it does not. -/

/-- The parse performed inside the `try` block of `extractJson`. -/
def attemptedPrimary (text : String) : Option Json :=
  match codeBlockCapture text with
  | some content => jsonParse content
  | none => jsonParse text

/-- The parse performed inside the `catch` block of `extractJson` (none when
either brace is missing). -/
def lastResortParse (text : String) : Option Json :=
  match jsIndexOf text.data openBrace, jsLastIndexOf text.data closeBrace with
  | some firstOpen, some lastClose =>
    jsonParse (String.mk (jsSubstring text.data firstOpen (lastClose + 1)))
  | some _, none => none
  | none, _ => none

theorem tryLastResort_eq (text : String) :
    tryLastResort text =
      match lastResortParse text with
      | some v => Except.ok v
      | none => Except.error invalidFormatMessage := by
  unfold tryLastResort lastResortParse
  cases h1 : jsIndexOf text.data openBrace with
  | none => simp only [h1]
  | some fo =>
    cases h2 : jsLastIndexOf text.data closeBrace with
    | none => simp only [h1, h2]
    | some lc =>
      cases h3 : jsonParse (String.mk (jsSubstring text.data fo (lc + 1))) <;>
        simp only [h1, h2, h3]

theorem extractJson_eq_primary (text : String) :
    extractJson text =
      match attemptedPrimary text with
      | some v => Except.ok v
      | none => tryLastResort text := by
  unfold extractJson attemptedPrimary
  cases hc : codeBlockCapture text with
  | none => cases jsonParse text <;> rfl
  | some c => cases jsonParse c <;> rfl

/-- C1 (amended): the strategy order as implemented.  When a fenced code
block exists, its content is parsed and decides the `try` block — success
wins, and failure jumps to the substring fallback, *skipping* the raw-text
parse.  Only when no code block exists is the raw text parsed, with the same
fallback on failure. -/
theorem extractJson_strategy_order (text : String) :
    (∀ c v, codeBlockCapture text = some c → jsonParse c = some v →
        extractJson text = Except.ok v) ∧
    (∀ v, codeBlockCapture text = none → jsonParse text = some v →
        extractJson text = Except.ok v) ∧
    (∀ c, codeBlockCapture text = some c → jsonParse c = none →
        extractJson text = tryLastResort text) ∧
    (codeBlockCapture text = none → jsonParse text = none →
        extractJson text = tryLastResort text) := by
  refine ⟨?_, ?_, ?_, ?_⟩
  · intro c v hc hv
    unfold extractJson
    simp only [hc, hv]
  · intro v hc hv
    unfold extractJson
    simp only [hc, hv]
  · intro c hc hv
    unfold extractJson
    simp only [hc, hv]
  · intro hc hv
    unfold extractJson
    simp only [hc, hv]

/-- A response that is valid JSON as raw text but contains two fences whose
captured content is not valid JSON. -/
def fencedQuotesText : String := "[\"```\", \"x\", \"```\"]"

/-- C1 counterexample: on `fencedQuotesText` the code block exists and its
captured content fails to parse; the claim then requires the raw text (which
is valid JSON) to be parsed next and to win, but the implementation skips the
raw-text strategy and fails with the malformed-response error. -/
theorem extractJson_counterexample_order :
    codeBlockCapture fencedQuotesText = some ("\", \"x\", \"") ∧
    jsonParse fencedQuotesText
      = some (Json.arr [Json.str ("```"), Json.str ("x"), Json.str ("```")]) ∧
    extractJson fencedQuotesText = Except.error invalidFormatMessage :=
  ⟨rfl, rfl, rfl⟩

/-- Witness for `extractJson_strategy_order`: a fenced JSON array is parsed
from the block content. -/
theorem extractJson_strategy_order_witness :
    extractJson ("Here you go: ```json\n[1]\n```") = Except.ok (Json.arr [Json.num ("1")]) :=
  (extractJson_strategy_order ("Here you go: ```json\n[1]\n```")).1 ("[1]")
    (Json.arr [Json.num ("1")]) rfl rfl

/-- C3 (amended): `extractJson` fails exactly when the strategies it actually
attempts all fail — the code-block content when a fenced block exists
(otherwise the raw text), and then the first-brace-to-last-brace substring —
and the only error it produces carries the invalid-format message; it returns
a parsed value whenever an attempted strategy yields valid JSON. -/
theorem extractJson_failure_spec (text : String) :
    (extractJson text = Except.error invalidFormatMessage ↔
        attemptedPrimary text = none ∧ lastResortParse text = none) ∧
    (∀ e, extractJson text = Except.error e → e = invalidFormatMessage) ∧
    (∀ v, attemptedPrimary text = some v → extractJson text = Except.ok v) ∧
    (∀ v, attemptedPrimary text = none → lastResortParse text = some v →
        extractJson text = Except.ok v) := by
  rw [extractJson_eq_primary, tryLastResort_eq]
  cases hp : attemptedPrimary text with
  | some v =>
    refine ⟨?_, ?_, ?_, ?_⟩
    · simp
    · intro e he
      exact absurd he (by simp)
    · intro w hw
      have h : v = w := by injection hw
      rw [← h]
    · intro w hw
      exact absurd hw (by simp)
  | none =>
    cases hl : lastResortParse text with
    | some w =>
      refine ⟨?_, ?_, ?_, ?_⟩
      · simp
      · intro e he
        exact absurd he (by simp)
      · intro u hu
        exact absurd hu (by simp)
      · intro u _ hu
        have h : w = u := by injection hu
        rw [← h]
    | none =>
      refine ⟨?_, ?_, ?_, ?_⟩
      · simp
      · intro e he
        injection he with h
        exact h.symm
      · intro u hu
        exact absurd hu (by simp)
      · intro u _ hu
        exact absurd hu (by simp)

/-- A response that is valid JSON as raw text, with fences around a
single-character capture that is not valid JSON, and no braces at all. -/
def fencedProseText : String := "[\"``` a ```\"]"

/-- C3 counterexample: on `fencedProseText` the raw-text strategy — one of
the claim's three strategies — yields valid JSON, so the claim requires
success; the implementation instead fails with the malformed-response error,
because the failed code-block parse jumps straight to the (also failing)
substring strategy. -/
theorem extractJson_counterexample_failure :
    jsonParse fencedProseText = some (Json.arr [Json.str ("``` a ```")]) ∧
    extractJson fencedProseText = Except.error invalidFormatMessage :=
  ⟨rfl, rfl⟩

/-- Witness for `extractJson_failure_spec`: a response with no recoverable
JSON fails with the invalid-format message. -/
theorem extractJson_failure_spec_witness :
    extractJson ("no json here at all") = Except.error invalidFormatMessage :=
  (extractJson_failure_spec ("no json here at all")).1.mpr ⟨rfl, rfl⟩

end SkillPath
